import Mathlib

/-!
# Verification of the imap-agent-music-archives ingestion engine

Shallow embedding, in Lean 4, of the workflow-driven email ingestion and
merge engine of the repository (files `email_processor.py`,
`attachment_handlers.py`, `utils.py`, `normalize_audio.py`), together with
proofs about the embedded definitions.

Strings are modelled as `List Char`; Python dict values appearing in the
release record are modelled by the inductive `PyVal`; the filesystem is
modelled as explicit association lists threaded through the functions;
Python exceptions are modelled with `Except`.

The repository file `workflows.py` (the `WorkflowConfig` class) is not part
of the available sources; the few members of it the engine uses
(`extract_release_number` via its configured pattern, `get_folder_name`)
are modelled from the spec and marked as such in their doc comments.
-/

namespace MusicArchive

/-- Strings of the embedded program. -/
abbrev Str := List Char

/-- Byte payloads (file contents); the byte values themselves never matter. -/
abbrev Bytes := List Nat

/-- Python whitespace (`str.strip` / regex `\s`), restricted to ASCII. -/
def pySpace (c : Char) : Bool :=
  c = ' ' || c = '\t' || c = '\n' || c = '\r' || c = '\x0b' || c = '\x0c'

/-- Python `str.lstrip()` with no argument. -/
def pyLStrip (s : Str) : Str := s.dropWhile pySpace

/-- Python `str.rstrip()` with no argument. -/
def pyRStrip (s : Str) : Str := (s.reverse.dropWhile pySpace).reverse

/-- Python `str.strip()` with no argument. -/
def pyStrip (s : Str) : Str := pyRStrip (pyLStrip s)

/-- Lowercase a string (`str.lower`), ASCII. -/
def lowerStr (s : Str) : Str := s.map Char.toLower

/-- Scalar values of the dynamically typed Python dict fields of a release
record (the engine stores strings, ints and `None` in them). -/
inductive PyScalar where
  | none
  | str (s : Str)
  | int (n : Int)
deriving DecidableEq, Repr

/-- A record field value: a scalar or a (flat) list of scalars. The records
this engine writes never nest lists inside these fields, so the model keeps
lists flat. -/
inductive PyVal where
  | scalar (v : PyScalar)
  | list (xs : List PyScalar)
deriving DecidableEq, Repr

/-- Python truthiness (`if v:`) for scalars. -/
def scalarTruthy : PyScalar → Bool
  | .none => false
  | .str s => !s.isEmpty
  | .int n => n != 0

/-- Python truthiness (`if v:`) for the modelled field values. -/
def pyTruthy : PyVal → Bool
  | .scalar v => scalarTruthy v
  | .list xs => !xs.isEmpty

/-- Is the value a Python list? (`isinstance(v, list)`). -/
def PyVal.isList : PyVal → Bool
  | .list _ => true
  | _ => false

/-- Python `v in xs` for a list, which compares by `==` (structural here). -/
def pyElem (v : PyScalar) (xs : List PyScalar) : Bool := decide (v ∈ xs)

/-- Python `str(v)` for scalars. -/
def scalarStr : PyScalar → Str
  | .none => "None".toList
  | .str s => s
  | .int n => (toString n).toList

/-- Python `str(v)` for field values (lists rendered crudely; the engine
only ever feeds such a result to a date parser, which rejects it). -/
def pyStr : PyVal → Str
  | .scalar v => scalarStr v
  | .list _ => "[...]".toList

/-- `utils.clean_text`: drop `\r`, turn `\n` into spaces, strip. -/
def clean_text (t : Str) : Str :=
  if t.isEmpty then []
  else pyStrip ((t.filter (fun c => c ≠ '\r')).map (fun c => if c = '\n' then ' ' else c))

/-- `utils.sanitize_for_json`: `text.replace('\\', '/').replace('"', "'")`
(empty input short-circuits to the empty string). -/
def sanitize_for_json (text : Str) : Str :=
  if text.isEmpty then []
  else (text.map (fun c => if c = '\\' then '/' else c)).map (fun c => if c = '"' then '\'' else c)

/-- Python `a or b` for strings (left operand if truthy, else right). -/
def pyOrStr (a b : Str) : Str := if a.isEmpty then b else a

/-- `os.path.basename` (POSIX): the part after the last `/`. -/
def osBasename (s : Str) : Str := (s.reverse.takeWhile (fun c => c ≠ '/')).reverse

/-- `os.path.splitext`: split off the extension at the last dot of the
basename; a basename whose characters before that dot are all dots (for
example `.bashrc`) has no extension. -/
def splitExt (s : Str) : Str × Str :=
  let base := osBasename s
  let revExt := base.reverse.takeWhile (fun c => c ≠ '.')
  if revExt.length = base.length then (s, [])
  else
    let pre := base.take (base.length - revExt.length - 1)
    if pre.all (fun c => c = '.') then (s, [])
    else (s.take (s.length - revExt.length - 1), '.' :: revExt.reverse)

/-- `re.sub(r'[^a-z0-9]+', '_', name)`: squash every run of
non-alphanumeric characters into a single underscore.  The Boolean records
whether the scanner is inside such a run. -/
def slugCoreF : Bool → Str → Str
  | _, [] => []
  | inRun, c :: rest =>
    if c.isLower || c.isDigit then c :: slugCoreF false rest
    else if inRun then slugCoreF true rest
    else '_' :: slugCoreF true rest

def slugCore (s : Str) : Str := slugCoreF false s

/-- Python `s.strip('_')`. -/
def stripUnderscore (s : Str) : Str :=
  ((s.dropWhile (fun c => c = '_')).reverse.dropWhile (fun c => c = '_')).reverse

/-- `utils.slugify_filename`: lowercase the stem, squash non-alphanumeric
runs to `_`, trim `_`, keep the lowercased extension. -/
def slugify_filename (filename : Str) : Str :=
  let p := splitExt filename
  stripUnderscore (slugCore (lowerStr p.1)) ++ lowerStr p.2

/-- Case-insensitive literal prologue match: if `s` starts with `kw`
(ignoring case) return the remainder of `s`. -/
def stripCI (kw : Str) (s : Str) : Option Str :=
  if lowerStr (s.take kw.length) = lowerStr kw then some (s.drop kw.length) else Option.none

/-- The keyword alternation `(?:Issue|#|Volume)` anchored at the start of
`s`, tried in order. -/
def kwAlt (s : Str) : Option Str :=
  match stripCI "Issue".toList s with
  | some r => some r
  | Option.none =>
    match stripCI "#".toList s with
    | some r => some r
    | Option.none => stripCI "Volume".toList s

/-- Try the regex `(?:Issue|#|Volume)\s*(\d+)` anchored at the start of `s`,
returning the captured digit run. -/
def kwNumAt (s : Str) : Option Str :=
  match kwAlt s with
  | Option.none => Option.none
  | some rest =>
    let num := (rest.dropWhile pySpace).takeWhile Char.isDigit
    if num.isEmpty then Option.none else some num

/-- `re.search(r'(?:Issue|#|Volume)\s*(\d+)', subject, re.IGNORECASE)`:
scan left to right for the first position where the pattern matches. -/
def searchKwNum : Str → Option Str
  | [] => Option.none
  | c :: t =>
    match kwNumAt (c :: t) with
    | some n => some n
    | Option.none => searchKwNum t

/-- `re.search(r'(\d+)', subject)`: the leftmost maximal digit run. -/
def firstDigitRun : Str → Option Str
  | [] => Option.none
  | c :: t => if c.isDigit then some (c :: t.takeWhile Char.isDigit) else firstDigitRun t

/-- The sentinel returned when no release number can be found. -/
def unknownSentinel : Str := "unknown".toList

/-- `utils.get_release_number_fallback`: keyword-prefixed number first, then
any number, else the sentinel `"unknown"`; never raises. -/
def get_release_number_fallback (subject : Str) : Str :=
  match searchKwNum subject with
  | some n => n
  | Option.none =>
    match firstDigitRun subject with
    | some n => n
    | Option.none => unknownSentinel

/-- Python `str.isdigit()` (ASCII): nonempty and all digits. -/
def pyIsDigit (s : Str) : Bool := !s.isEmpty && s.all Char.isDigit

/-- Python `needle in hay` for strings (substring test). -/
def pyInStr (needle hay : Str) : Bool := decide (needle <:+: hay)

/-! ## Release records and the merge logic (`email_processor.py`) -/

/-- A saved-file descriptor returned by an attachment handler: the dicts
`{"original": ..., "slugified": ..., "type"?: ..., "path"?: ...}`. -/
structure SavedFile where
  original : Str
  slugified : Str
  ftype : Option Str := Option.none
  path : Option Str := Option.none
deriving DecidableEq, Repr

/-- The persisted release record (`raw.json`), restricted to the fields the
merge logic reads or writes.  `_merge_metadata` returns `existing`
unchanged outside these fields, so the remaining fields (`date`, `from`,
`to`, side-channel text) are carried opaquely in `rest`. -/
structure RawRecord where
  uid : PyVal
  message_id : PyVal
  subject : PyVal
  body : Str
  attachments : List SavedFile
  rest : List (Str × Str) := []
deriving DecidableEq, Repr

/-- The freshly extracted data of one email (`new_data` in
`_save_metadata`): the three identity fields are scalars before the
list-initialisation step; `extras` models the `**extracted_text`
side-channel dict splatted into the literal, whose keys override the
literal's earlier keys. -/
structure NewData where
  uid : PyScalar
  message_id : PyScalar
  subject : PyScalar
  body : Str
  attachments : List SavedFile
  extras : List (Str × Str) := []
deriving DecidableEq, Repr

/-- Association-list lookup (Python `dict.get`). -/
def dictGet (k : Str) (d : List (Str × Str)) : Option Str :=
  (d.find? (fun p => p.1 = k)).map (fun p => p.2)

/-- The body field of `new_data` as the dict literal produces it: the
`"body"` key of the literal holds the sanitized message text, but a key
`"body"` inside the splatted `**extracted_text` overrides it. -/
def newDataBody (sanitizedBody : Str) (extras : List (Str × Str)) : Str :=
  match dictGet "body".toList extras with
  | some b => b
  | Option.none => sanitizedBody

/-- `_save_metadata`'s `new_data` construction (lines 237–247): uid,
message-id and cleaned subject from the message, sanitized body, plus the
splatted side-channel text. -/
def build_new_data (uid message_id : PyScalar) (clean_subject : Str) (msgText msgHtml : Str)
    (attachment_metadata : List SavedFile) (extracted_text : List (Str × Str)) : NewData :=
  { uid := uid
    message_id := message_id
    subject := .str clean_subject
    body := newDataBody (sanitize_for_json (pyOrStr msgText msgHtml)) extracted_text
    attachments := attachment_metadata
    extras := extracted_text }

/-- The list-coercion step of `_merge_metadata`: a non-list value becomes a
one-element list when truthy and the empty list otherwise. -/
def coerceToList : PyVal → List PyScalar
  | .list xs => xs
  | .scalar v => if scalarTruthy v then [v] else []

/-- One identity field's merge in `_merge_metadata`: coerce to a list, then
append the new value only when it is not already an element. -/
def mergeField (old : PyVal) (newVal : PyScalar) : PyVal :=
  let l := coerceToList old
  if pyElem newVal l then .list l else .list (l ++ [newVal])

/-- The visible separator inserted between merged body parts. -/
def partSep : Str := "\n\n--- PART 2 ---\n\n".toList

/-- The body merge of `_merge_metadata`: append the new body after the
separator (stripping the whole concatenation) unless the new body is empty
or already a substring of the existing body. -/
def mergeBody (existingBody newBody : Str) : Str :=
  if !newBody.isEmpty && !pyInStr newBody existingBody then
    pyStrip (existingBody ++ partSep ++ newBody)
  else existingBody

/-- `EmailProcessor._merge_metadata` (lines 264–292): merge a new email's
data into the existing release record.  The legacy branch that re-parses a
string-encoded `attachments` field cannot arise in the typed model. -/
def merge_metadata (existing : RawRecord) (nd : NewData) : RawRecord :=
  { existing with
    uid := mergeField existing.uid nd.uid
    message_id := mergeField existing.message_id nd.message_id
    subject := mergeField existing.subject nd.subject
    body := mergeBody existing.body nd.body
    attachments := existing.attachments ++ nd.attachments }

/-- The create branch of `_save_metadata`: the three identity fields are
initialised as one-element lists. -/
def freshRecord (nd : NewData) : RawRecord :=
  { uid := .list [nd.uid]
    message_id := .list [nd.message_id]
    subject := .list [nd.subject]
    body := nd.body
    attachments := nd.attachments
    rest := nd.extras }

/-- `EmailProcessor._save_metadata` (lines 249–262), reduced to the value
written to `raw.json`: merge when `merge_fragments` is set and the record
already exists, create otherwise. -/
def save_metadata (merge_fragments : Bool) (existing : Option RawRecord) (nd : NewData) : RawRecord :=
  match merge_fragments, existing with
  | true, some ex => merge_metadata ex nd
  | _, _ => freshRecord nd

/-! ## Glob matching (`fnmatch`, as used by `_matches_pattern`) -/

/-- A token of a compiled glob pattern. -/
inductive GTok where
  | star
  | qmark
  | lit (c : Char)
  | cls (neg : Bool) (body : Str)
deriving DecidableEq, Repr

/-- Split a character class after its opening `[`: an optional `!`
negation, then (with a leading `]` belonging to the set) everything up to
the closing `]`.  `Option.none` when the class is unterminated, in which
case `[` is a literal. -/
def classSplit (ps : Str) : Option (Bool × Str × Str) :=
  let neg := ps.take 1 = ['!']
  let ps1 := if neg then ps.drop 1 else ps
  let skipFirst := ps1.take 1 = [']']
  let ps2 := if skipFirst then ps1.drop 1 else ps1
  match List.findIdx? (fun c => c = ']') ps2 with
  | Option.none => Option.none
  | some i =>
    let body := if skipFirst then ']' :: ps2.take i else ps2.take i
    some (neg, body, ps2.drop (i + 1))

/-- Membership of a character in a class body, with `a-b` ranges. -/
def inClass : Str → Char → Bool
  | [], _ => false
  | a :: '-' :: b :: rest, c => (a ≤ c && c ≤ b) || inClass rest c
  | a :: rest, c => a = c || inClass rest c

/-- Compile a glob pattern into tokens (`fnmatch.translate`'s scanner).
The fuel argument is structural bookkeeping only: every step consumes at
least one pattern character, so `globTokens` below always supplies enough. -/
def globTokensF : Nat → Str → List GTok
  | 0, _ => []
  | _, [] => []
  | fuel + 1, '*' :: ps => .star :: globTokensF fuel ps
  | fuel + 1, '?' :: ps => .qmark :: globTokensF fuel ps
  | fuel + 1, '[' :: ps =>
    match classSplit ps with
    | some (neg, body, rest) => .cls neg body :: globTokensF fuel rest
    | Option.none => .lit '[' :: globTokensF fuel ps
  | fuel + 1, c :: ps => .lit c :: globTokensF fuel ps

/-- Compile a glob pattern into tokens. -/
def globTokens (p : Str) : List GTok := globTokensF p.length p

/-- Match a token list against a string; `*` matches any (possibly empty)
sequence, expressed as matching some suffix of the remaining string. -/
def gmatch : List GTok → Str → Bool
  | [], s => s.isEmpty
  | .star :: ps, s => s.tails.any (fun t => gmatch ps t)
  | .qmark :: ps, s =>
    match s with
    | [] => false
    | _ :: t => gmatch ps t
  | .lit c :: ps, s =>
    match s with
    | [] => false
    | d :: t => (c = d) && gmatch ps t
  | .cls neg body :: ps, s =>
    match s with
    | [] => false
    | d :: t => (inClass body d != neg) && gmatch ps t

/-- `fnmatch.fnmatch pattern s` for already case-normalised inputs. -/
def globMatch (pattern s : Str) : Bool := gmatch (globTokens pattern) s

/-- `EmailProcessor._matches_pattern`: case-insensitive match of the
filename against any of the configured glob patterns. -/
def matches_pattern (filename : Str) (patterns : List Str) : Bool :=
  patterns.any (fun p => globMatch (lowerStr p) (lowerStr filename))

/-! ## Filesystem model -/

/-- Association-list update (later writes replace earlier ones). -/
def setA {α : Type} (k : Str) (v : α) : List (Str × α) → List (Str × α)
  | [] => [(k, v)]
  | (k2, v2) :: rest => if k2 = k then (k, v) :: rest else (k2, v2) :: setA k v rest

/-- Association-list lookup by path. -/
def getA {α : Type} (k : Str) (l : List (Str × α)) : Option α :=
  (l.find? (fun p => p.1 = k)).map (fun p => p.2)

/-- The filesystem visible to the engine: created directories, written
binary files, and the written `raw.json` release records (kept typed). -/
structure FS where
  dirs : List Str := []
  files : List (Str × Bytes) := []
  records : List (Str × RawRecord) := []
deriving DecidableEq, Repr

def writeFile (p : Str) (content : Bytes) (fs : FS) : FS :=
  { fs with files := setA p content fs.files }

def writeRecord (p : Str) (r : RawRecord) (fs : FS) : FS :=
  { fs with records := setA p r fs.records }

/-- `mkdir(parents=True, exist_ok=True)` for one directory. -/
def mkdirP (p : Str) (fs : FS) : FS :=
  if p ∈ fs.dirs then fs else { fs with dirs := fs.dirs ++ [p] }

def dirExists (p : Str) (fs : FS) : Bool := fs.dirs.contains p

/-- `pathlib`'s `dir / name` (a trailing empty component is a no-op). -/
def pjoin (a b : Str) : Str := if b.isEmpty then a else a ++ '/' :: b

/-- `shutil.rmtree`: drop the directory and everything under it. -/
def rmTree (p : Str) (fs : FS) : FS :=
  { dirs := fs.dirs.filter (fun d => !(d = p || decide ((p ++ ['/']) <+: d)))
    files := fs.files.filter (fun q => !(decide ((p ++ ['/']) <+: q.1)))
    records := fs.records.filter (fun q => !(decide ((p ++ ['/']) <+: q.1))) }

/-- `os.path.dirname` (POSIX). -/
def osDirname (s : Str) : Str :=
  let head := (s.reverse.dropWhile (fun c => c ≠ '/')).reverse
  if head.isEmpty then []
  else if head.all (fun c => c = '/') then head
  else (head.reverse.dropWhile (fun c => c = '/')).reverse

/-- `os.path.join` of two components (POSIX). -/
def osJoin (a b : Str) : Str :=
  if b.take 1 = ['/'] then b
  else if a.isEmpty then b
  else if a.getLast? = some '/' then a ++ b
  else a ++ '/' :: b

/-- `Path.relative_to(base)` for the paths the engine builds (which are
always under `base`). -/
def relTo (base p : Str) : Str :=
  if base.isEmpty then p
  else if decide ((base ++ ['/']) <+: p) then p.drop (base.length + 1)
  else p

/-! ## Workflow configuration and messages -/

/-- One entry of a workflow's ordered attachment-processor chain. -/
structure ProcessorConfig where
  name : Str
  file_patterns : List Str
  handler : Str
  options : List (Str × Str)
deriving DecidableEq, Repr

/-- The workflow configuration, restricted to the members the processing
engine reads.  `releasePattern` and `folderName` stand for the
`WorkflowConfig` methods `extract_release_number`'s configured regex and
`get_folder_name`; they are modelled from the spec because `workflows.py`
is not part of the available sources. -/
structure Workflow where
  name : Str
  collection_type : Str
  base_dir : Str
  registry_filename : Str
  merge_fragments : Bool
  attachment_processors : List ProcessorConfig
  single_release_name : Str
  release_indicator : Str
  generate_metadata : Bool
  after_date : Option Str
  releasePattern : Str → Option Str
  folderName : Str → Str

/-- Modelled from the spec: `WorkflowConfig.extract_release_number`
(`workflows.py` is missing from the sources).  Per the spec it applies the
workflow's configured regex first and falls back to the first number found
in the subject, returning the sentinel `"unknown"` — and never raising —
when nothing matches; the fallback chain is `utils.get_release_number_fallback`,
which is in the sources. -/
def extract_release_number (wf : Workflow) (subject : Str) : Str :=
  match wf.releasePattern subject with
  | some n => n
  | Option.none => get_release_number_fallback subject

/-- An email attachment (filename plus byte payload). -/
structure Attachment where
  filename : Str
  payload : Bytes
deriving DecidableEq, Repr

/-- A fetched email message, as the engine consumes it. -/
structure Msg where
  uid : Str
  message_id : PyScalar
  subject : Str
  text : Str
  html : Str
  attachments : List Attachment
deriving DecidableEq, Repr

/-! ## Attachment handler registry and dispatch -/

/-- Python exceptions the embedded code distinguishes. -/
inductive PyExc where
  | valueError
  | otherErr
deriving DecidableEq, Repr

instance exceptDecEq {ε α : Type} [DecidableEq ε] [DecidableEq α] :
    DecidableEq (Except ε α) := fun a b =>
  match a, b with
  | .ok x, .ok y =>
    if h : x = y then isTrue (by rw [h]) else isFalse (fun hc => h (by cases hc; rfl))
  | .error x, .error y =>
    if h : x = y then isTrue (by rw [h]) else isFalse (fun hc => h (by cases hc; rfl))
  | .ok _, .error _ => isFalse (fun hc => by cases hc)
  | .error _, .ok _ => isFalse (fun hc => by cases hc)

def hZipName : Str := "process_zip_attachment".toList
def hNormalizeName : Str := "normalize_audio".toList
def hDocxName : Str := "extract_docx_text".toList
def hImageName : Str := "save_image".toList

/-- The handler registry keys (`attachment_handlers.HANDLERS`). -/
def HANDLER_KEYS : List Str := [hZipName, hNormalizeName, hDocxName, hImageName]

/-- `attachment_handlers.get_handler`: raises `ValueError` for a name
outside the registry, at the moment of lookup. -/
def get_handler (name : Str) : Except PyExc Str :=
  if name ∈ HANDLER_KEYS then .ok name else .error .valueError

/-- Side-channel extracted text (`extracted_text` dict). -/
abbrev EText := List (Str × Str)

/-- The outcome of running one handler: updated filesystem, updated
side-channel text, and either the saved-file descriptors or an exception. -/
abbrev HandlerOut := FS × EText × Except PyExc (List SavedFile)

/-- The semantics of invoking a registered handler
`handler(attachment=…, target_dir=…, extracted_text=…, options=…, workflow=…)`.
The dispatch theorems are stated for every such semantics; concrete
instances are used in witnesses. -/
def RunHandler : Type :=
  Str → Attachment → Str → List (Str × Str) → FS → EText → HandlerOut

def image_extensions : List Str :=
  [".jpg".toList, ".jpeg".toList, ".png".toList, ".gif".toList, ".bmp".toList,
   ".webp".toList, ".svg".toList]

/-- `EmailProcessor._is_image`: lowercased filename ends in an image
extension. -/
def is_image (filename : Str) : Bool :=
  image_extensions.any (fun ext => decide (ext <:+ lowerStr filename))

/-- `EmailProcessor._save_raw_attachment`: write the payload under the
slugified name and return a minimal descriptor. -/
def save_raw_attachment (att : Attachment) (target_dir : Str) (fs : FS) : FS × List SavedFile :=
  let orig := clean_text att.filename
  let slug := slugify_filename orig
  (writeFile (pjoin target_dir slug) att.payload fs, [{ original := orig, slugified := slug }])

/-- The first processor of the chain whose patterns match the filename. -/
def findProcessor (wf : Workflow) (orig : Str) : Option ProcessorConfig :=
  wf.attachment_processors.find? (fun pc => matches_pattern orig pc.file_patterns)

/-- `EmailProcessor._process_attachment` (lines 183–229): route the
attachment to the first matching processor (looking its handler up only
then), or save it verbatim into the type-inferred directory. -/
def process_attachment (run : RunHandler) (wf : Workflow) (att : Attachment)
    (issue_dir : Str) (fs : FS) (et : EText) : HandlerOut :=
  let orig := clean_text att.filename
  let target := if is_image orig then pjoin issue_dir "images".toList else pjoin issue_dir "audio".toList
  match findProcessor wf orig with
  | some pc =>
    match get_handler pc.handler with
    | .error e => (fs, et, .error e)
    | .ok h => run h att target pc.options fs et
  | Option.none =>
    let out := save_raw_attachment att target fs
    (out.1, et, .ok out.2)

/-- The attachment loop of `process_single_email`: an exception from any
handler propagates (aborting the message), otherwise descriptors
accumulate in order. -/
def processAttachments (run : RunHandler) (wf : Workflow) (issue_dir : Str) :
    List Attachment → FS → EText → List SavedFile → FS × EText × Except PyExc (List SavedFile)
  | [], fs, et, acc => (fs, et, .ok acc)
  | att :: rest, fs, et, acc =>
    match process_attachment run wf att issue_dir fs et with
    | (fs2, et2, .error e) => (fs2, et2, .error e)
    | (fs2, et2, .ok lst) => processAttachments run wf issue_dir rest fs2 et2 (acc ++ lst)

/-! ## The per-message engine and the dedup registry -/

/-- `utils.is_already_downloaded` on the in-memory registry list. -/
def is_already_downloaded (uid : Str) (registry : List Str) : Bool :=
  decide (uid ∈ registry)

/-- `utils.mark_as_downloaded`: append the uid unless present. -/
def mark_as_downloaded (uid : Str) (registry : List Str) : List Str :=
  if uid ∈ registry then registry else registry ++ [uid]

/-- Release-folder resolution of `process_single_email` (lines 108–131):
`Option.none` is a hard skip (non-numeric release number, missing title, or
unknown collection type). -/
def resolveFolder (wf : Workflow) (clean_subject : Str) (title : Option Str) : Option Str :=
  if wf.collection_type = "bound_volume".toList then
    let rn := extract_release_number wf clean_subject
    if pyIsDigit rn then some (wf.folderName rn) else Option.none
  else if wf.collection_type = "playlist".toList then some wf.single_release_name
  else if wf.collection_type = "named_release".toList then
    match title with
    | some t => some (slugify_filename t)
    | Option.none => Option.none
  else Option.none

/-- The body of `process_single_email` after folder resolution: existence
check, optional force-clean of the audio directory, directory creation,
attachment dispatch, and record persistence.  The optional LLM metadata
generation step is external and catches all its own exceptions, so it is
not modelled. -/
def processResolved (run : RunHandler) (wf : Workflow) (fs : FS) (msg : Msg)
    (force : Bool) (clean_subject folder : Str) : FS × Except PyExc Unit :=
  let issue_dir := pjoin wf.base_dir folder
  let audio_dir := pjoin issue_dir "audio".toList
  let images_dir := pjoin issue_dir "images".toList
  let raw_path := pjoin issue_dir "raw.json".toList
  if !force && dirExists issue_dir fs && (getA raw_path fs.records).isSome && !wf.merge_fragments then
    (fs, .ok ())
  else
    let fs1 := if force && dirExists audio_dir fs && decide (0 < msg.attachments.length) then rmTree audio_dir fs else fs
    let fs2 := mkdirP images_dir (mkdirP audio_dir (mkdirP issue_dir fs1))
    match processAttachments run wf issue_dir msg.attachments fs2 [] [] with
    | (fs3, _, .error e) => (fs3, .error e)
    | (fs3, et3, .ok att_meta) =>
      let nd := build_new_data (.str msg.uid) msg.message_id clean_subject msg.text msg.html att_meta et3
      let final := save_metadata wf.merge_fragments (getA raw_path fs3.records) nd
      (writeRecord raw_path final fs3, .ok ())

/-- `EmailProcessor.process_single_email` (lines 101–181): resolve the
release folder (skipping without error on the data-quality gates), then
process and persist. -/
def process_single_email (run : RunHandler) (wf : Workflow) (fs : FS) (msg : Msg)
    (force : Bool) (title : Option Str) : FS × Except PyExc Unit :=
  let clean_subject := clean_text msg.subject
  match resolveFolder wf clean_subject title with
  | Option.none => (fs, .ok ())
  | some folder => processResolved run wf fs msg force clean_subject folder

/-- The engine's per-run state: the filesystem and the dedup registry. -/
structure EngineState where
  fs : FS
  registry : List Str
deriving DecidableEq, Repr

/-- One iteration of the fetch loop of `process_all_emails` (lines 90–99):
skip already-processed uids, process the message inside `try`, and mark
the uid processed whenever no exception escaped. -/
def engineStep (run : RunHandler) (wf : Workflow) (force : Bool) (title : Option Str)
    (st : EngineState) (msg : Msg) : EngineState :=
  if !force && is_already_downloaded msg.uid st.registry then st
  else
    match process_single_email run wf st.fs msg force title with
    | (fs2, .ok _) => ⟨fs2, mark_as_downloaded msg.uid st.registry⟩
    | (fs2, .error _) => ⟨fs2, st.registry⟩

/-- The fetch loop of `process_all_emails` over the fetched sequence. -/
def process_all_emails (run : RunHandler) (wf : Workflow) (force : Bool)
    (title : Option Str) (msgs : List Msg) (st : EngineState) : EngineState :=
  msgs.foldl (engineStep run wf force title) st

/-! ## The archive-extraction handler (`process_zip_attachment`) -/

/-- One entry of an opened zip archive. -/
structure ZipEntry where
  name : Str
  content : Bytes
deriving DecidableEq, Repr

/-- The hidden/system junk filter of `process_zip_attachment`: empty
basename, or a basename starting with `.` or `__`. -/
def isJunkName (b : Str) : Bool :=
  b.isEmpty || b.take 1 = ['.'] || b.take 2 = "__".toList

/-- The inner re-dispatch loop over the workflow's processors for one
extracted file: skip the config named `zip_extractor`, look the handler up
(raising on an unknown name even before the pattern test), and run the
first matching one, updating the descriptor with the post-processed
filename when the handler reports one. -/
def zipInner (runInner : RunHandler) (extract_dir relBase slug : Str) (extAtt : Attachment) :
    List ProcessorConfig → FS → EText → SavedFile → FS × EText × Except PyExc SavedFile
  | [], fs, et, meta => (fs, et, .ok meta)
  | pc :: rest, fs, et, meta =>
    if pc.name = "zip_extractor".toList then
      zipInner runInner extract_dir relBase slug extAtt rest fs et meta
    else
      match get_handler pc.handler with
      | .error e => (fs, et, .error e)
      | .ok hname =>
        if matches_pattern slug pc.file_patterns then
          match runInner hname extAtt extract_dir pc.options fs et with
          | (fs2, et2, .error e) => (fs2, et2, .error e)
          | (fs2, et2, .ok lst) =>
            match lst with
            | [] => (fs2, et2, .ok meta)
            | m :: _ =>
              (fs2, et2, .ok { meta with
                slugified := m.slugified
                path := some (relTo relBase (pjoin extract_dir m.slugified)) })
        else zipInner runInner extract_dir relBase slug extAtt rest fs et meta

/-- The entry loop of `process_zip_attachment` (lines 31–86): filter junk,
slugify, write the extracted file, then re-dispatch it. -/
def zipLoop (runInner : RunHandler) (wf : Workflow) (extract_dir relBase : Str) :
    List ZipEntry → FS → EText → List SavedFile → FS × EText × Except PyExc (List SavedFile)
  | [], fs, et, acc => (fs, et, .ok acc)
  | e :: rest, fs, et, acc =>
    let bn := osBasename e.name
    if isJunkName bn then zipLoop runInner wf extract_dir relBase rest fs et acc
    else
      let slug := slugify_filename bn
      let fpath := pjoin extract_dir slug
      let fs1 := writeFile fpath e.content fs
      let meta0 : SavedFile := { original := bn, slugified := slug, path := some (relTo relBase fpath) }
      match zipInner runInner extract_dir relBase slug ⟨slug, e.content⟩ wf.attachment_processors fs1 et meta0 with
      | (fs2, et2, .error ex) => (fs2, et2, .error ex)
      | (fs2, et2, .ok meta) => zipLoop runInner wf extract_dir relBase rest fs2 et2 (acc ++ [meta])

/-- `attachment_handlers.process_zip_attachment` (lines 16–89), with the
archive already opened into its entry list and the recursive handler
invocation abstracted by `runInner`. -/
def process_zip_attachment (runInner : RunHandler) (entries : List ZipEntry) (target_dir : Str)
    (et : EText) (options : List (Str × Str)) (wf : Workflow) (fs : FS) :
    FS × EText × Except PyExc (List SavedFile) :=
  let extract_dir := pjoin target_dir ((dictGet "extract_to".toList options).getD [])
  let relBase := osDirname target_dir
  let fs0 := mkdirP extract_dir fs
  zipLoop runInner wf extract_dir relBase entries fs0 et []

/-! ## Resume-cursor scan (`_get_latest_archived_date`) -/

/-- One `raw.json` as the scan sees it: unreadable (any exception while
opening/parsing), or readable with the optional `date` field. -/
abbrev ReadRec := Except Unit (Option PyVal)

/-- `str(date_str).replace('Z', '+00:00')`. -/
def replaceZ (s : Str) : Str :=
  s.foldr (fun c acc => if c = 'Z' then "+00:00".toList ++ acc else c :: acc) []

/-- One iteration of the `_get_latest_archived_date` scan (lines 40–62).
`parse` models `datetime.fromisoformat` (`Option.none` = raises, skipping
the record), `fmt` models `strftime("%Y/%m/%d")`; dates are modelled as a
linearly ordered type via `Int`. -/
def latestStep (parse : Str → Option Int) (fmt : Int → Str)
    (acc : Option Str × Option Int) (r : ReadRec) : Option Str × Option Int :=
  match r with
  | .error _ => acc
  | .ok df =>
    match df with
    | Option.none => acc
    | some v =>
      if pyTruthy v then
        match (match v with | .list xs => xs.head? | .scalar sv => some sv) with
        | Option.none => acc
        | some sv =>
          if scalarTruthy sv then
            match parse (replaceZ (scalarStr sv)) with
            | Option.none => acc
            | some d =>
              match acc.2 with
              | Option.none => (some (fmt d), some d)
              | some cur => if d > cur then (some (fmt d), some d) else acc
          else acc
      else acc

/-- `EmailProcessor._get_latest_archived_date` (lines 29–64) over the
scanned records. -/
def get_latest_archived_date (parse : Str → Option Int) (fmt : Int → Str)
    (records : List ReadRec) : Option Str :=
  (records.foldl (latestStep parse fmt) (Option.none, Option.none)).1

/-- The date one record contributes to the scan, if any (specification
companion of `latestStep`). -/
def extractDate (parse : Str → Option Int) (r : ReadRec) : Option Int :=
  match r with
  | .error _ => Option.none
  | .ok df =>
    match df with
    | Option.none => Option.none
    | some v =>
      if pyTruthy v then
        match (match v with | .list xs => xs.head? | .scalar sv => some sv) with
        | Option.none => Option.none
        | some sv => if scalarTruthy sv then parse (replaceZ (scalarStr sv)) else Option.none
      else Option.none

/-- Maximum of two optional dates. -/
def optMaxI : Option Int → Option Int → Option Int
  | Option.none, b => b
  | some a, Option.none => some a
  | some a, some b => some (max a b)

/-- Maximum of a list of dates. -/
def maxListI (l : List Int) : Option Int :=
  l.foldr (fun x acc => optMaxI (some x) acc) Option.none

/-! ## Audio normalization (`normalize_audio.py`) -/

/-- One output-format configuration of `OUTPUT_FORMATS`. -/
structure FmtCfg where
  codec : Str
  fmtName : Str
  ext : Str
  bitrate : Option Str
deriving DecidableEq, Repr

/-- `normalize_audio.OUTPUT_FORMATS` (`'original'` maps to `None`). -/
def OUTPUT_FORMATS : List (Str × Option FmtCfg) :=
  [("original".toList, Option.none),
   ("mp3".toList, some ⟨"libmp3lame".toList, "mp3".toList, ".mp3".toList, some "320k".toList⟩),
   ("ogg".toList, some ⟨"libvorbis".toList, "ogg".toList, ".ogg".toList, some "192k".toList⟩),
   ("m4a".toList, some ⟨"aac".toList, "ipod".toList, ".m4a".toList, some "192k".toList⟩),
   ("flac".toList, some ⟨"flac".toList, "flac".toList, ".flac".toList, Option.none⟩),
   ("opus".toList, some ⟨"libopus".toList, "opus".toList, ".opus".toList, some "128k".toList⟩)]

/-- What the external `run_normalization` call did: raised, or left the
temporary output file in the given state (`Option.none` = never created).
It can only touch the fresh temporary directory, so the main filesystem is
unaffected either way. -/
inductive RunOut where
  | raised
  | produced (tempContent : Option Bytes)
deriving DecidableEq, Repr

/-- A flat file map for the directory `normalize_audio` works in. -/
abbrev FileMap := List (Str × Bytes)

def removeF (p : Str) (fs : FileMap) : FileMap := fs.filter (fun q => q.1 ≠ p)

/-- `normalize_audio.normalize_audio` (lines 43–140): missing input or
invalid format fail fast; after the external run, the temporary output is
verified to exist and be non-empty before the original is removed (only
when the target name differs) and the output moved into place. -/
def normalize_audio (fs : FileMap) (input_path : Str) (output_format : Str)
    (target_lufs : Int) (bitrate : Option Str) (run : RunOut) : FileMap × Bool :=
  if (getA input_path fs).isNone then (fs, false)
  else if (OUTPUT_FORMATS.find? (fun p => p.1 = output_format)).isNone then (fs, false)
  else
    let base_name := (splitExt (osBasename input_path)).1
    let input_dir := osDirname input_path
    let input_ext := lowerStr (splitExt input_path).2
    let extension :=
      if output_format = "original".toList then input_ext
      else
        match (OUTPUT_FORMATS.find? (fun p => p.1 = output_format)).bind (fun p => p.2) with
        | some cfg => cfg.ext
        | Option.none => input_ext
    let final_filename := base_name ++ extension
    let target_path := osJoin input_dir final_filename
    match run with
    | .raised => (fs, false)
    | .produced Option.none => (fs, false)
    | .produced (some content) =>
      if decide (0 < content.length) then
        let fs1 :=
          if target_path = input_path then fs
          else if (getA input_path fs).isSome then removeF input_path fs else fs
        (setA target_path content fs1, true)
      else (fs, false)

/-! ## Concrete instances used in counterexamples and witnesses -/

/-- A trivial handler semantics: touches nothing, returns no descriptors. -/
def runNoop : RunHandler := fun _ _ _ _ fs et => (fs, et, .ok [])

def emptyFS : FS := {}

/-- A `bound_volume` workflow with no configured release pattern. -/
def wfBound : Workflow :=
  { name := "bound".toList
    collection_type := "bound_volume".toList
    base_dir := "archive".toList
    registry_filename := "downloaded_uids.json".toList
    merge_fragments := false
    attachment_processors := []
    single_release_name := []
    release_indicator := "Issue".toList
    generate_metadata := false
    after_date := Option.none
    releasePattern := fun _ => Option.none
    folderName := fun rn => "issue_".toList ++ rn }

/-- A message whose cleaned subject contains no digits at all. -/
def msgNoNum : Msg :=
  { uid := "101".toList
    message_id := .str "<m101>".toList
    subject := "hello world".toList
    text := "body".toList
    html := []
    attachments := [] }

/-- A playlist workflow whose only processor names a handler that is not in
the registry. -/
def wfBadHandler : Workflow :=
  { wfBound with
    collection_type := "playlist".toList
    single_release_name := "all".toList
    attachment_processors :=
      [{ name := "p".toList, file_patterns := ["*".toList], handler := "bogus".toList, options := [] }] }

def msgNoAtt : Msg := { msgNoNum with uid := "102".toList }

def attMp3 : Attachment := { filename := "track.mp3".toList, payload := [1, 2] }

def attZip : Attachment := { filename := "archive.zip".toList, payload := [3] }

def zipPC : ProcessorConfig :=
  { name := "zip_extractor".toList, file_patterns := ["*.zip".toList], handler := hZipName, options := [] }

def catchPC : ProcessorConfig :=
  { name := "catch".toList, file_patterns := ["*".toList], handler := hImageName, options := [] }

/-- A workflow configuring `*.zip` before the catch-all `*`. -/
def wfZipFirst : Workflow := { wfBound with attachment_processors := [zipPC, catchPC] }

def normPC : ProcessorConfig :=
  { name := "norm".toList, file_patterns := ["*.m4a".toList], handler := hNormalizeName, options := [] }

/-- A workflow configuring the archive extractor and an audio processor. -/
def wfZipNorm : Workflow := { wfBound with attachment_processors := [zipPC, normPC] }

/-- A handler semantics that reports a transcoded filename. -/
def runRename : RunHandler := fun _ att dir _ fs et =>
  (fs, et, .ok [{ original := att.filename, slugified := "t_track.mp3".toList, ftype := some "audio".toList }])

/-- An existing release record (one contributing email, body still empty). -/
def recC1 : RawRecord :=
  { uid := .list [.str "1".toList]
    message_id := .list [.str "m1".toList]
    subject := .list [.str "s".toList]
    body := []
    attachments := [] }

/-- A new fragment whose sanitized body ends in a space. -/
def ndC1 : NewData :=
  { uid := .str "2".toList
    message_id := .str "m2".toList
    subject := .str "s".toList
    body := "a ".toList
    attachments := [] }

/-- New data whose side-channel text defines a `body` key, shadowing the
sanitized message text in the dict literal. -/
def ndShadow : NewData :=
  build_new_data (.str "1".toList) .none "s".toList "x\\y".toList [] []
    [("body".toList, "raw \\ body".toList)]

/-- A new fragment whose body does not end in whitespace. -/
def ndGood : NewData :=
  { uid := .str "2".toList
    message_id := .str "m2".toList
    subject := .str "s".toList
    body := "hello".toList
    attachments := [] }

/-- A junk archive entry (macOS resource fork). -/
def entryJunk : ZipEntry := { name := "__MACOSX/._t.m4a".toList, content := [9] }

/-- A retained archive entry. -/
def entryGood : ZipEntry := { name := "music/T track.M4A".toList, content := [3] }

/-- The descriptor built for `entryGood` before re-dispatch. -/
def metaW : SavedFile :=
  { original := "T track.M4A".toList
    slugified := "t_track.m4a".toList
    path := some (relTo "a".toList (pjoin "a/audio/x".toList "t_track.m4a".toList)) }

/-- A concrete date parser for the resume-cursor witness. -/
def parse7 (s : Str) : Option Int :=
  if s = "2024-01-01".toList then some 1
  else if s = "2024-01-02".toList then some 2
  else if s = "2024-01-03".toList then some 3
  else Option.none

/-- A concrete date formatter for the resume-cursor witness. -/
def fmt7 (n : Int) : Str :=
  if n = 3 then "2024/01/03".toList else (toString n).toList

/-- Concrete scanned records: a readable dated record, an unreadable one, a
list-dated record holding the maximum, and a record with no date. -/
def records7 : List ReadRec :=
  [.ok (some (.scalar (.str "2024-01-01".toList))),
   .error (),
   .ok (some (.list [.str "2024-01-03".toList, .str "2024-01-02".toList])),
   .ok Option.none]

def records7rev : List ReadRec := records7.reverse

/-- A one-file directory for the normalization witness. -/
def fs9 : FileMap := [("dir/a.mp3".toList, [1, 2, 3])]

/-! ## Helper lemmas -/

theorem mergeField_isList (old : PyVal) (v : PyScalar) : (mergeField old v).isList = true := by
  simp only [mergeField]
  split <;> rfl

theorem mergeField_idem (old : PyVal) (v : PyScalar) :
    mergeField (mergeField old v) v = mergeField old v := by
  by_cases h : pyElem v (coerceToList old) = true
  · have h1 : mergeField old v = .list (coerceToList old) := by
      simp only [mergeField]
      rw [if_pos h]
    rw [h1]
    simp only [mergeField]
    rw [show coerceToList (PyVal.list (coerceToList old)) = coerceToList old from rfl]
    rw [if_pos h]
  · have h1 : mergeField old v = .list (coerceToList old ++ [v]) := by
      simp only [mergeField]
      rw [if_neg h]
    rw [h1]
    have hmem : pyElem v (coerceToList old ++ [v]) = true := by
      simp [pyElem]
    simp only [mergeField]
    rw [show coerceToList (PyVal.list (coerceToList old ++ [v])) = coerceToList old ++ [v] from rfl]
    rw [if_pos hmem]

theorem pyRStrip_noop (l : Str) (hlast : ∀ c, l.getLast? = some c → pySpace c = false) :
    pyRStrip l = l := by
  unfold pyRStrip
  rcases hr : l.reverse with _ | ⟨d, t⟩
  · have : l = [] := List.reverse_eq_nil_iff.mp hr
    simp [this]
  · have hd : l.getLast? = some d := by
      rw [← List.head?_reverse, hr]; rfl
    have hds : pySpace d = false := hlast d hd
    rw [List.dropWhile_cons]
    simp only [hds, Bool.false_eq_true, if_false]
    simpa using (congrArg List.reverse hr).symm

theorem pyLStrip_append_of_not_all_space (m n : Str) (hm : ∃ x ∈ m, pySpace x = false) :
    pyLStrip (m ++ n) = pyLStrip m ++ n := by
  unfold pyLStrip
  rw [List.dropWhile_append]
  have hne : (m.dropWhile pySpace).isEmpty = false := by
    rcases hm with ⟨x, hx, hpx⟩
    rw [List.isEmpty_eq_false_iff_exists_mem]
    by_contra hcon
    push_neg at hcon
    have hall : m.dropWhile pySpace = [] := List.eq_nil_iff_forall_not_mem.mpr hcon
    have := List.dropWhile_eq_nil_iff.mp hall x hx
    rw [this] at hpx; exact Bool.true_eq_false.mp hpx
  simp [hne]

theorem mergeBody_noop (x n : Str) (h : pyInStr n x = true) : mergeBody x n = x := by
  unfold mergeBody
  simp [h]

theorem mergeBody_contains (e n : Str) (hne : n ≠ [])
    (hlast : ∀ c, n.getLast? = some c → pySpace c = false) :
    pyInStr n (mergeBody e n) = true := by
  unfold mergeBody
  by_cases hcond : (!n.isEmpty && !pyInStr n e) = true
  · rw [if_pos hcond]
    have hassoc : e ++ partSep ++ n = (e ++ partSep) ++ n := by
      simp [List.append_assoc]
    unfold pyStrip
    rw [hassoc, pyLStrip_append_of_not_all_space (e ++ partSep) n
      ⟨'-', by simp [partSep], rfl⟩]
    rcases hn : n.getLast? with _ | c
    · exact absurd (List.getLast?_eq_none_iff.mp hn) hne
    · have hr : pyRStrip (pyLStrip (e ++ partSep) ++ n) = pyLStrip (e ++ partSep) ++ n := by
        apply pyRStrip_noop
        intro d hd
        rw [List.getLast?_append, hn] at hd
        simp at hd
        rw [← hd]; exact hlast c hn
      rw [hr]
      unfold pyInStr
      exact decide_eq_true ((List.suffix_append (pyLStrip (e ++ partSep)) n).isInfix)
  · rw [if_neg hcond]
    have hemp : n.isEmpty = false := by simpa [List.isEmpty_iff] using hne
    simp [hemp] at hcond
    exact hcond

theorem mergeBody_idem (e n : Str) (hlast : ∀ c, n.getLast? = some c → pySpace c = false) :
    mergeBody (mergeBody e n) n = mergeBody e n := by
  by_cases hne : n = []
  · subst hne
    simp [mergeBody]
  · exact mergeBody_noop _ _ (mergeBody_contains e n hne hlast)

theorem map_eq_self_mem {α : Type} (f : α → α) :
    ∀ (l : List α), l.map f = l → ∀ x ∈ l, f x = x := by
  intro l
  induction l with
  | nil => simp
  | cons a t ih =>
    intro h x hx
    simp only [List.map_cons, List.cons.injEq] at h
    rcases List.mem_cons.mp hx with hx1 | hx1
    · subst hx1; exact h.1
    · exact ih h.2 x hx1

theorem sanitize_no_bad_chars (t : Str) (c : Char) (hc : c ∈ sanitize_for_json t) :
    c ≠ '\\' ∧ c ≠ '"' := by
  unfold sanitize_for_json at hc
  split at hc
  · simp at hc
  · rw [List.map_map] at hc
    rcases List.mem_map.mp hc with ⟨a, _, ha⟩
    subst ha
    constructor <;> intro h <;>
      simp only [Function.comp] at h <;>
      by_cases h1 : a = '\\' <;> by_cases h2 : a = '"' <;>
      simp [h1, h2] at h

theorem sanitize_changes (t : Str) (hmem : '\\' ∈ t ∨ '"' ∈ t) :
    sanitize_for_json t ≠ t := by
  intro heq
  unfold sanitize_for_json at heq
  split at heq
  · rename_i hemp
    rw [List.isEmpty_iff] at hemp
    subst hemp
    simp at hmem
  · rw [List.map_map] at heq
    rcases hmem with hmem | hmem
    · have := map_eq_self_mem _ t heq '\\' hmem
      simp [Function.comp] at this
    · have := map_eq_self_mem _ t heq '"' hmem
      simp [Function.comp] at this

theorem mem_mark_as_downloaded (uid : Str) (reg : List Str) :
    uid ∈ mark_as_downloaded uid reg := by
  unfold mark_as_downloaded
  split
  · assumption
  · simp

/-! ## Claim C1 — merge dedup and idempotence -/

/-- C1 (counterexample): merging the same fragment twice is not always a
no-op on the body.  With an existing record whose body is empty and a new
body ending in a space, the first merge's trailing `strip()` removes the
space, so the second merge no longer finds the new body as a substring and
appends the whole block again. -/
theorem merge_rerun_changes_body :
    (merge_metadata (merge_metadata recC1 ndC1) ndC1).body ≠ (merge_metadata recC1 ndC1).body := by
  decide

/-- C1 (amended): re-merging the same email's record leaves the `uid`,
`message_id` and `subject` lists unchanged (value-level dedup), and leaves
the body unchanged provided the new body text does not end in whitespace
(the `strip()` applied after appending otherwise truncates the stored copy,
breaking the substring test on the re-run). -/
theorem merge_rerun_noop (r : RawRecord) (nd : NewData)
    (hlast : ∀ c, nd.body.getLast? = some c → pySpace c = false) :
    (merge_metadata (merge_metadata r nd) nd).uid = (merge_metadata r nd).uid ∧
    (merge_metadata (merge_metadata r nd) nd).message_id = (merge_metadata r nd).message_id ∧
    (merge_metadata (merge_metadata r nd) nd).subject = (merge_metadata r nd).subject ∧
    (merge_metadata (merge_metadata r nd) nd).body = (merge_metadata r nd).body := by
  refine ⟨?_, ?_, ?_, ?_⟩
  · exact mergeField_idem r.uid nd.uid
  · exact mergeField_idem r.message_id nd.message_id
  · exact mergeField_idem r.subject nd.subject
  · exact mergeBody_idem r.body nd.body hlast

/-- C1 witness: the amended theorem applied to a concrete record and a
fragment whose body ends in a letter. -/
theorem merge_rerun_noop_witness :
    (∀ c, ndGood.body.getLast? = some c → pySpace c = false) ∧
    (merge_metadata (merge_metadata recC1 ndGood) ndGood).body = (merge_metadata recC1 ndGood).body :=
  ⟨by decide, (merge_rerun_noop recC1 ndGood (by decide)).2.2.2⟩

/-! ## Claim C2 — identity fields are always list-valued after persist -/

/-- C2: every record value `_save_metadata` persists — freshly created or
merged — has list-valued `uid`, `message_id` and `subject` fields. -/
theorem persisted_identity_fields_are_lists (mf : Bool) (ex : Option RawRecord) (nd : NewData) :
    ((save_metadata mf ex nd).uid).isList = true ∧
    ((save_metadata mf ex nd).message_id).isList = true ∧
    ((save_metadata mf ex nd).subject).isList = true := by
  rcases mf with _ | _ <;> rcases ex with _ | ex
  · simp [save_metadata, freshRecord, PyVal.isList]
  · simp [save_metadata, freshRecord, PyVal.isList]
  · simp [save_metadata, freshRecord, PyVal.isList]
  · simp only [save_metadata, merge_metadata]
    exact ⟨mergeField_isList _ _, mergeField_isList _ _, mergeField_isList _ _⟩

/-! ## Claim C10 — sanitized body invariant -/

/-- C10 (counterexample): the persisted body is not always the sanitized
message text.  The `**extracted_text` splat in the `new_data` literal can
define a `body` key (a docx processor configured with
`field_name = "body"`), which overrides the sanitized text — here the
persisted body still contains a backslash. -/
theorem persisted_body_shadowed :
    '\\' ∈ (save_metadata false Option.none ndShadow).body ∧
    (save_metadata false Option.none ndShadow).body ≠ sanitize_for_json (pyOrStr "x\\y".toList []) := by
  refine ⟨by decide, by decide⟩

/-- C10 (amended): when the side-channel extracted text does not define a
`body` key, a persisted fresh record's body is exactly
`sanitize_for_json(msg.text or msg.html)`; sanitized text never contains a
backslash or a double quote, and differs from any original that contained
either character. -/
theorem persisted_body_sanitized (mf : Bool) (uid mid : PyScalar) (subj text html : Str)
    (am : List SavedFile) (et : EText)
    (hshadow : dictGet "body".toList et = Option.none) :
    (save_metadata mf Option.none (build_new_data uid mid subj text html am et)).body
      = sanitize_for_json (pyOrStr text html) ∧
    (∀ t c, c ∈ sanitize_for_json t → c ≠ '\\' ∧ c ≠ '"') ∧
    (∀ t, ('\\' ∈ t ∨ '"' ∈ t) → sanitize_for_json t ≠ t) := by
  refine ⟨?_, sanitize_no_bad_chars, sanitize_changes⟩
  have h2 : dictGet ['b', 'o', 'd', 'y'] et = Option.none := hshadow
  rcases mf with _ | _ <;>
    simp [save_metadata, freshRecord, build_new_data, newDataBody, h2]

/-- C10 witness: the amended theorem at a concrete message containing both
a backslash and a double quote. -/
theorem persisted_body_sanitized_witness :
    dictGet "body".toList ([] : EText) = Option.none ∧
    (save_metadata false Option.none
        (build_new_data (.str "1".toList) .none "s".toList "a\\b\"c".toList [] [] [])).body
      = sanitize_for_json (pyOrStr "a\\b\"c".toList []) ∧
    sanitize_for_json "a\\b\"c".toList ≠ "a\\b\"c".toList :=
  ⟨rfl,
   (persisted_body_sanitized false (.str "1".toList) .none "s".toList "a\\b\"c".toList []
      [] [] rfl).1,
   (persisted_body_sanitized false (.str "1".toList) .none "s".toList "a\\b\"c".toList []
      [] [] rfl).2.2 "a\\b\"c".toList (by decide)⟩

/-! ## Claim C3 — when is a uid marked processed? -/

/-- C3 (counterexample): a message skipped without persisting anything is
still marked processed.  Under a `bound_volume` workflow, a subject with no
parseable number makes `process_single_email` return early without raising,
so the fetch loop proceeds to `_mark_processed`: the filesystem is
untouched but the uid lands in the registry, making the message ineligible
for retry. -/
theorem skipped_message_still_marked :
    process_all_emails runNoop wfBound false Option.none [msgNoNum] ⟨emptyFS, []⟩
      = ⟨emptyFS, ["101".toList]⟩ := by
  decide

/-- C3 (amended): the uid is appended to the registry exactly when
`process_single_email` returns without an escaping exception — including
the skip returns; an exception leaves the registry unchanged, keeping the
message eligible for retry. -/
theorem mark_follows_no_exception (run : RunHandler) (wf : Workflow) (force : Bool)
    (title : Option Str) (st : EngineState) (msg : Msg) :
    (∀ e, (process_single_email run wf st.fs msg force title).2 = .error e →
      (engineStep run wf force title st msg).registry = st.registry) ∧
    ((!force && is_already_downloaded msg.uid st.registry) = false →
      (process_single_email run wf st.fs msg force title).2 = .ok () →
      msg.uid ∈ (engineStep run wf force title st msg).registry) := by
  constructor
  · intro e he
    unfold engineStep
    split
    · rfl
    · rcases hps : process_single_email run wf st.fs msg force title with ⟨fs2, r⟩
      rw [hps] at he
      cases r with
      | ok u => simp at he
      | error e2 => simp
  · intro hnew hok
    unfold engineStep
    rw [if_neg (by simp [hnew])]
    rcases hps : process_single_email run wf st.fs msg force title with ⟨fs2, r⟩
    rw [hps] at hok
    cases r with
    | ok u => exact mem_mark_as_downloaded msg.uid st.registry
    | error e2 => simp at hok

/-- C3 witness: the amended theorem on a fresh registry and a message that
processes without exception. -/
theorem mark_follows_no_exception_witness :
    ((!false && is_already_downloaded msgNoNum.uid (⟨emptyFS, []⟩ : EngineState).registry) = false) ∧
    msgNoNum.uid ∈ (engineStep runNoop wfBound false Option.none ⟨emptyFS, []⟩ msgNoNum).registry :=
  ⟨by decide,
   (mark_follows_no_exception runNoop wfBound false Option.none ⟨emptyFS, []⟩ msgNoNum).2
     (by decide) rfl⟩

/-! ## Claim C4 — when does an unknown handler name fail? -/

/-- C4 (counterexample): a workflow whose configuration references the
unknown handler name `bogus` is not rejected at load time: a whole message
with no attachments processes successfully under it, and the `ValueError`
from `get_handler` surfaces only during attachment dispatch, when the first
attachment matches that processor's patterns. -/
theorem unknown_handler_surfaces_at_dispatch :
    (process_single_email runNoop wfBadHandler emptyFS msgNoAtt false Option.none).2 = .ok () ∧
    (process_attachment runNoop wfBadHandler attMp3 "base/all".toList emptyFS []).2.2
      = .error .valueError := by
  refine ⟨by decide, by decide⟩

/-- C4 (amended): an unknown handler name referenced by configuration
raises `ValueError` at dispatch time: whenever the first matching processor
of an attachment names a handler outside the registry, `_process_attachment`
fails with `ValueError` (caught per message by the fetch loop), rather than
at workflow-load time. -/
theorem unknown_handler_dispatch_error (run : RunHandler) (wf : Workflow) (att : Attachment)
    (dir : Str) (fs : FS) (et : EText) (pc : ProcessorConfig)
    (hfind : findProcessor wf (clean_text att.filename) = some pc)
    (hbad : pc.handler ∉ HANDLER_KEYS) :
    (process_attachment run wf att dir fs et).2.2 = .error .valueError := by
  unfold process_attachment get_handler
  simp only [hfind]
  rw [if_neg hbad]

/-- C4 witness: the amended theorem at the concrete bad workflow. -/
theorem unknown_handler_dispatch_error_witness :
    findProcessor wfBadHandler (clean_text attMp3.filename)
      = some ⟨"p".toList, ["*".toList], "bogus".toList, []⟩ ∧
    (process_attachment runNoop wfBadHandler attMp3 "d".toList emptyFS []).2.2
      = .error .valueError :=
  ⟨by decide,
   unknown_handler_dispatch_error runNoop wfBadHandler attMp3 "d".toList emptyFS []
     ⟨"p".toList, ["*".toList], "bogus".toList, []⟩ (by decide) (by decide)⟩

/-! ## Claim C8 — non-numeric release number is a hard skip -/

theorem firstDigitRun_none (s : Str) (h : ∀ c ∈ s, c.isDigit = false) :
    firstDigitRun s = Option.none := by
  induction s with
  | nil => rfl
  | cons c t ih =>
    unfold firstDigitRun
    rw [h c (by simp)]
    simp only [Bool.false_eq_true, if_false]
    exact ih (fun x hx => h x (by simp [hx]))

theorem stripCI_drop (kw s rest : Str) (h : stripCI kw s = some rest) :
    rest = s.drop kw.length := by
  unfold stripCI at h
  split at h
  · exact (Option.some.injEq _ _ ▸ h).symm
  · exact absurd h (by simp)

theorem kwAlt_drop (s rest : Str) (h : kwAlt s = some rest) : rest ⊆ s := by
  unfold kwAlt at h
  rcases h1 : stripCI "Issue".toList s with _ | r1
  · rcases h2 : stripCI "#".toList s with _ | r2
    · rw [h1, h2] at h
      simp only at h
      rw [stripCI_drop _ _ _ h]
      exact List.drop_subset _ _
    · rw [h1, h2] at h
      simp only [Option.some.injEq] at h
      subst h
      rw [stripCI_drop _ _ _ h2]
      exact List.drop_subset _ _
  · rw [h1] at h
    simp only [Option.some.injEq] at h
    subst h
    rw [stripCI_drop _ _ _ h1]
    exact List.drop_subset _ _

theorem kwNumAt_has_digit (s n : Str) (h : kwNumAt s = some n) :
    ∃ c ∈ s, c.isDigit = true := by
  unfold kwNumAt at h
  rcases hk : kwAlt s with _ | rest
  · rw [hk] at h; simp at h
  · rw [hk] at h
    dsimp only at h
    have hrest : rest ⊆ s := kwAlt_drop s rest hk
    rcases hn : (rest.dropWhile pySpace).takeWhile Char.isDigit with _ | ⟨c, t⟩
    · rw [hn] at h
      simp at h
    · refine ⟨c, ?_, ?_⟩
      · have hc1 : c ∈ (rest.dropWhile pySpace).takeWhile Char.isDigit := by
          rw [hn]; simp
        have hc2 : c ∈ rest.dropWhile pySpace :=
          (List.takeWhile_sublist _).subset hc1
        exact hrest ((List.dropWhile_sublist _).subset hc2)
      · exact List.mem_takeWhile_imp (hn ▸ List.mem_cons_self c t)

theorem searchKwNum_none (s : Str) (h : ∀ c ∈ s, c.isDigit = false) :
    searchKwNum s = Option.none := by
  induction s with
  | nil => rfl
  | cons c t ih =>
    unfold searchKwNum
    rcases hk : kwNumAt (c :: t) with _ | n
    · exact ih (fun x hx => h x (by simp [hx]))
    · rcases kwNumAt_has_digit _ _ hk with ⟨d, hd, hdig⟩
      rw [h d hd] at hdig
      exact absurd hdig (by simp)

theorem fallback_sentinel (s : Str) (h : ∀ c ∈ s, c.isDigit = false) :
    get_release_number_fallback s = unknownSentinel := by
  unfold get_release_number_fallback
  rw [searchKwNum_none s h, firstDigitRun_none s h]

/-- C8: under `bound_volume`, a message whose extracted release number is
not all-digits is a hard skip — `process_single_email` returns without an
exception and with the filesystem untouched (no folder, no file, no
record); the extractor itself returns the sentinel `"unknown"` (which is
not numeric) rather than raising when the subject has no digits at all. -/
theorem bound_volume_nonnumeric_skip (run : RunHandler) (wf : Workflow) (fs : FS) (msg : Msg)
    (force : Bool) (title : Option Str)
    (hct : wf.collection_type = "bound_volume".toList)
    (hnn : pyIsDigit (extract_release_number wf (clean_text msg.subject)) = false) :
    process_single_email run wf fs msg force title = (fs, .ok ()) ∧
    (∀ s, (∀ c ∈ s, c.isDigit = false) → get_release_number_fallback s = unknownSentinel) ∧
    pyIsDigit unknownSentinel = false := by
  refine ⟨?_, fallback_sentinel, by decide⟩
  unfold process_single_email resolveFolder
  rw [hct]
  simp [hnn]

/-- C8 witness: the skip theorem at the concrete digit-free subject. -/
theorem bound_volume_nonnumeric_skip_witness :
    wfBound.collection_type = "bound_volume".toList ∧
    pyIsDigit (extract_release_number wfBound (clean_text msgNoNum.subject)) = false ∧
    process_single_email runNoop wfBound emptyFS msgNoNum false Option.none = (emptyFS, .ok ()) :=
  ⟨rfl, by decide,
   (bound_volume_nonnumeric_skip runNoop wfBound emptyFS msgNoNum false Option.none
      rfl (by decide)).1⟩

/-! ## Claim C5 — dispatch by first matching processor, with fallback -/

theorem find?_of_first {α : Type} (p : α → Bool) :
    ∀ (l : List α) (i : Nat) (x : α), l[i]? = some x → p x = true →
      (∀ j y, j < i → l[j]? = some y → p y = false) → l.find? p = some x := by
  intro l
  induction l with
  | nil => intro i x h; simp at h
  | cons a t ih =>
    intro i x hget hp hmin
    cases i with
    | zero =>
      rw [List.getElem?_cons_zero] at hget
      cases hget
      rw [List.find?_cons, hp]
    | succ n =>
      have ha : p a = false := hmin 0 a (Nat.zero_lt_succ n) (by simp)
      rw [List.find?_cons, ha]
      rw [List.getElem?_cons_succ] at hget
      exact ih n x hget hp (fun j y hj hg => hmin (j + 1) y (by omega) (by simpa using hg))

/-- C5: attachment dispatch.  (1) When the first matching processor (in
declaration order) names a registered handler, `_process_attachment` runs
exactly that handler on the type-inferred target directory.  (2) The
matched processor is the first one in declaration order whose patterns
match.  (3) When no processor matches, the attachment is saved verbatim
into the images directory for image extensions and the audio directory
otherwise.  (4) Concretely, with `*.zip` configured before `*`, a `.zip`
attachment routes to the zip processor, not the catch-all. -/
theorem dispatch_first_match (run : RunHandler) (wf : Workflow) (att : Attachment)
    (dir : Str) (fs : FS) (et : EText) :
    (∀ pc, findProcessor wf (clean_text att.filename) = some pc → pc.handler ∈ HANDLER_KEYS →
      process_attachment run wf att dir fs et =
        run pc.handler att
          (if is_image (clean_text att.filename) then pjoin dir "images".toList
           else pjoin dir "audio".toList) pc.options fs et) ∧
    (∀ (i : Nat) (pc : ProcessorConfig), wf.attachment_processors[i]? = some pc →
      matches_pattern (clean_text att.filename) pc.file_patterns = true →
      (∀ (j : Nat) (pcj : ProcessorConfig), j < i → wf.attachment_processors[j]? = some pcj →
        matches_pattern (clean_text att.filename) pcj.file_patterns = false) →
      findProcessor wf (clean_text att.filename) = some pc) ∧
    (findProcessor wf (clean_text att.filename) = Option.none →
      process_attachment run wf att dir fs et =
        ((save_raw_attachment att
            (if is_image (clean_text att.filename) then pjoin dir "images".toList
             else pjoin dir "audio".toList) fs).1, et,
          .ok (save_raw_attachment att
            (if is_image (clean_text att.filename) then pjoin dir "images".toList
             else pjoin dir "audio".toList) fs).2)) ∧
    findProcessor wfZipFirst (clean_text attZip.filename) = some zipPC := by
  refine ⟨?_, ?_, ?_, by decide⟩
  · intro pc hfind hkeys
    unfold process_attachment get_handler
    simp only [hfind]
    rw [if_pos hkeys]
  · intro i pc hget hp hmin
    exact find?_of_first _ wf.attachment_processors i pc hget hp hmin
  · intro hnone
    unfold process_attachment
    simp only [hnone]

/-- C5 witness: the dispatch theorem at the concrete `*.zip`-then-`*`
workflow and a zip attachment. -/
theorem dispatch_first_match_witness :
    findProcessor wfZipFirst (clean_text attZip.filename) = some zipPC ∧
    zipPC.handler ∈ HANDLER_KEYS ∧
    process_attachment runNoop wfZipFirst attZip "base/all".toList emptyFS [] =
      runNoop zipPC.handler attZip
        (if is_image (clean_text attZip.filename) then pjoin "base/all".toList "images".toList
         else pjoin "base/all".toList "audio".toList) zipPC.options emptyFS [] :=
  ⟨by decide, by decide,
   (dispatch_first_match runNoop wfZipFirst attZip "base/all".toList emptyFS []).1 zipPC
     (by decide) (by decide)⟩

/-! ## Claim C6 — archive extraction: junk filter, re-dispatch, renaming -/

theorem zipInner_first_eligible (runInner : RunHandler) (xd rb slug : Str) (extAtt : Attachment) :
    ∀ (procs : List ProcessorConfig) (i : Nat) (pc : ProcessorConfig) (fs : FS) (et : EText)
      (meta : SavedFile),
      procs[i]? = some pc →
      pc.name ≠ "zip_extractor".toList →
      pc.handler ∈ HANDLER_KEYS →
      matches_pattern slug pc.file_patterns = true →
      (∀ (j : Nat) (pcj : ProcessorConfig), j < i → procs[j]? = some pcj →
        pcj.name = "zip_extractor".toList ∨
          (pcj.handler ∈ HANDLER_KEYS ∧ matches_pattern slug pcj.file_patterns = false)) →
      zipInner runInner xd rb slug extAtt procs fs et meta =
        (match runInner pc.handler extAtt xd pc.options fs et with
         | (fs2, et2, .error e) => (fs2, et2, .error e)
         | (fs2, et2, .ok lst) =>
           match lst with
           | [] => (fs2, et2, .ok meta)
           | m :: _ =>
             (fs2, et2, .ok { meta with
               slugified := m.slugified
               path := some (relTo rb (pjoin xd m.slugified)) })) := by
  intro procs
  induction procs with
  | nil => intro i pc fs et meta hget; simp at hget
  | cons a t ih =>
    intro i pc fs et meta hget hname hkeys hmatch hmin
    cases i with
    | zero =>
      rw [List.getElem?_cons_zero] at hget
      cases hget
      unfold zipInner get_handler
      rw [if_neg hname, if_pos hkeys]
      simp only [hmatch, if_true]
    | succ n =>
      rw [List.getElem?_cons_succ] at hget
      have htail : ∀ (j : Nat) (pcj : ProcessorConfig), j < n → t[j]? = some pcj →
          pcj.name = "zip_extractor".toList ∨
            (pcj.handler ∈ HANDLER_KEYS ∧ matches_pattern slug pcj.file_patterns = false) := by
        intro j pcj hj hg
        exact hmin (j + 1) pcj (by omega) (by simpa using hg)
      have hstep := ih n pc fs et meta hget hname hkeys hmatch htail
      rcases hmin 0 a (Nat.zero_lt_succ n) (by simp) with ha | ha
      · unfold zipInner
        rw [if_pos ha]
        exact hstep
      · by_cases haz : a.name = "zip_extractor".toList
        · unfold zipInner
          rw [if_pos haz]
          exact hstep
        · unfold zipInner get_handler
          rw [if_neg haz, if_pos ha.1]
          simp only [ha.2, Bool.false_eq_true, if_false]
          exact hstep

/-- C6: archive extraction.  (1) An entry whose basename is empty or starts
with `.` or `__` is skipped outright: no file written, no descriptor
recorded.  (2) A retained entry is written under the extraction directory
with its slugified basename, and its initial descriptor records exactly
that name, before the entry is re-dispatched.  (3) Re-dispatch runs the
first configured processor not named `zip_extractor` whose patterns match
the slugified name (a config with an unregistered handler ahead of it would
raise instead), and when that handler returns a descriptor with a changed
filename, the entry's recorded descriptor carries the post-processed
filename and path, not the extracted ones. -/
theorem zip_extractor_spec (runInner : RunHandler) (wf : Workflow) (xd rb : Str) :
    (∀ (e : ZipEntry) (rest : List ZipEntry) (fs : FS) (et : EText) (acc : List SavedFile),
      isJunkName (osBasename e.name) = true →
      zipLoop runInner wf xd rb (e :: rest) fs et acc = zipLoop runInner wf xd rb rest fs et acc) ∧
    (∀ (e : ZipEntry) (rest : List ZipEntry) (fs : FS) (et : EText) (acc : List SavedFile),
      isJunkName (osBasename e.name) = false →
      zipLoop runInner wf xd rb (e :: rest) fs et acc =
        (match zipInner runInner xd rb (slugify_filename (osBasename e.name))
            ⟨slugify_filename (osBasename e.name), e.content⟩ wf.attachment_processors
            (writeFile (pjoin xd (slugify_filename (osBasename e.name))) e.content fs) et
            { original := osBasename e.name
              slugified := slugify_filename (osBasename e.name)
              path := some (relTo rb (pjoin xd (slugify_filename (osBasename e.name)))) } with
         | (fs2, et2, .error ex) => (fs2, et2, .error ex)
         | (fs2, et2, .ok meta) => zipLoop runInner wf xd rb rest fs2 et2 (acc ++ [meta]))) ∧
    (∀ (slug : Str) (extAtt : Attachment) (i : Nat) (pc : ProcessorConfig) (fs : FS) (et : EText)
      (meta : SavedFile),
      wf.attachment_processors[i]? = some pc →
      pc.name ≠ "zip_extractor".toList →
      pc.handler ∈ HANDLER_KEYS →
      matches_pattern slug pc.file_patterns = true →
      (∀ (j : Nat) (pcj : ProcessorConfig), j < i → wf.attachment_processors[j]? = some pcj →
        pcj.name = "zip_extractor".toList ∨
          (pcj.handler ∈ HANDLER_KEYS ∧ matches_pattern slug pcj.file_patterns = false)) →
      zipInner runInner xd rb slug extAtt wf.attachment_processors fs et meta =
        (match runInner pc.handler extAtt xd pc.options fs et with
         | (fs2, et2, .error e) => (fs2, et2, .error e)
         | (fs2, et2, .ok lst) =>
           match lst with
           | [] => (fs2, et2, .ok meta)
           | m :: _ =>
             (fs2, et2, .ok { meta with
               slugified := m.slugified
               path := some (relTo rb (pjoin xd m.slugified)) }))) := by
  refine ⟨?_, ?_, ?_⟩
  · intro e rest fs et acc hjunk
    simp [zipLoop, hjunk]
  · intro e rest fs et acc hjunk
    simp [zipLoop, hjunk]
  · intro slug extAtt i pc fs et meta hget hname hkeys hmatch hmin
    exact zipInner_first_eligible runInner xd rb slug extAtt wf.attachment_processors i pc fs et
      meta hget hname hkeys hmatch hmin

/-- C6 witness: the re-dispatch conjunct at the concrete
`[zip_extractor, normalize]` chain, where the inner handler reports a
transcoded `.mp3` name and the final descriptor carries it. -/
theorem zip_extractor_spec_witness :
    wfZipNorm.attachment_processors[1]? = some normPC ∧
    isJunkName (osBasename entryJunk.name) = true ∧
    zipInner runRename "a/audio/x".toList "a".toList "t_track.m4a".toList
        ⟨"t_track.m4a".toList, [3]⟩ wfZipNorm.attachment_processors emptyFS [] metaW =
      (match runRename normPC.handler (⟨"t_track.m4a".toList, [3]⟩ : Attachment)
          "a/audio/x".toList normPC.options emptyFS [] with
       | (fs2, et2, .error e) => (fs2, et2, .error e)
       | (fs2, et2, .ok lst) =>
         match lst with
         | [] => (fs2, et2, .ok metaW)
         | m :: _ =>
           (fs2, et2, .ok { metaW with
             slugified := m.slugified
             path := some (relTo "a".toList (pjoin "a/audio/x".toList m.slugified)) })) :=
  ⟨by decide, by decide,
   (zip_extractor_spec runRename wfZipNorm "a/audio/x".toList "a".toList).2.2
     "t_track.m4a".toList ⟨"t_track.m4a".toList, [3]⟩ 1 normPC emptyFS [] metaW
     (by decide) (by decide) (by decide) (by decide)
     (by
       intro j pcj hj hg
       have hj0 : j = 0 := by omega
       subst hj0
       have hz : wfZipNorm.attachment_processors[0]? = some zipPC := by decide
       rw [hz] at hg
       have hpc := Option.some.inj hg
       subst hpc
       left
       decide)⟩

/-! ## Claim C7 — resume cursor equals the maximum archived date -/

theorem optMaxI_none_right (a : Option Int) : optMaxI a Option.none = a := by
  cases a <;> rfl

theorem optMaxI_assoc (a b c : Option Int) :
    optMaxI (optMaxI a b) c = optMaxI a (optMaxI b c) := by
  cases a <;> cases b <;> cases c <;> simp [optMaxI, max_assoc]

theorem optMaxI_left_comm (x y : Int) (c : Option Int) :
    optMaxI (some x) (optMaxI (some y) c) = optMaxI (some y) (optMaxI (some x) c) := by
  cases c <;> simp [optMaxI, max_comm, max_left_comm]

theorem maxListI_perm (l₁ l₂ : List Int) (h : l₁.Perm l₂) : maxListI l₁ = maxListI l₂ := by
  induction h with
  | nil => rfl
  | cons x h ih =>
    show optMaxI (some x) (maxListI _) = optMaxI (some x) (maxListI _)
    rw [ih]
  | swap x y l =>
    show optMaxI (some y) (optMaxI (some x) (maxListI l))
      = optMaxI (some x) (optMaxI (some y) (maxListI l))
    exact optMaxI_left_comm y x _
  | trans h1 h2 ih1 ih2 => exact ih1.trans ih2

theorem latestStep_eq (parse : Str → Option Int) (fmt : Int → Str)
    (acc : Option Str × Option Int) (r : ReadRec) :
    latestStep parse fmt acc r =
      (match extractDate parse r with
       | Option.none => acc
       | some dv =>
         match acc.2 with
         | Option.none => (some (fmt dv), some dv)
         | some cur => if dv > cur then (some (fmt dv), some dv) else acc) := by
  cases r with
  | error e => rfl
  | ok df =>
    cases df with
    | none => rfl
    | some v =>
      unfold latestStep extractDate
      dsimp only
      by_cases htv : pyTruthy v = true
      · rw [if_pos htv, if_pos htv]
        rcases hw : (match v with | PyVal.list xs => xs.head? | PyVal.scalar sv => some sv)
            with _ | sv
        · rw [hw]
        · rw [hw]
          dsimp only
          by_cases hst : scalarTruthy sv = true
          · rw [if_pos hst, if_pos hst]
          · rw [if_neg hst, if_neg hst]
      · rw [if_neg htv, if_neg htv]

theorem latestStep_spec (parse : Str → Option Int) (fmt : Int → Str) (d : Option Int)
    (r : ReadRec) :
    latestStep parse fmt (d.map fmt, d) r =
      ((optMaxI d (extractDate parse r)).map fmt, optMaxI d (extractDate parse r)) := by
  rw [latestStep_eq]
  rcases hx : extractDate parse r with _ | dv
  · cases d <;> rfl
  · cases d with
    | none => rfl
    | some cur =>
      by_cases hgt : dv > cur
      · simp only [hgt, if_pos]
        have : max cur dv = dv := max_eq_right (le_of_lt hgt)
        simp [optMaxI, this]
      · simp only [hgt, if_neg]
        have : max cur dv = cur := max_eq_left (by omega)
        simp [optMaxI, this]

theorem latest_foldl_spec (parse : Str → Option Int) (fmt : Int → Str) :
    ∀ (l : List ReadRec) (d : Option Int),
      l.foldl (latestStep parse fmt) (d.map fmt, d) =
        ((optMaxI d (maxListI (l.filterMap (extractDate parse)))).map fmt,
          optMaxI d (maxListI (l.filterMap (extractDate parse)))) := by
  intro l
  induction l with
  | nil =>
    intro d
    show (d.map fmt, d) = _
    rw [show maxListI (List.filterMap (extractDate parse) []) = Option.none from rfl,
      optMaxI_none_right]
  | cons r t ih =>
    intro d
    rw [List.foldl_cons, latestStep_spec parse fmt d r,
      ih (optMaxI d (extractDate parse r)), List.filterMap_cons]
    rcases hx : extractDate parse r with _ | dv
    · rw [optMaxI_none_right]
    · show _ = ((optMaxI d (optMaxI (some dv) (maxListI _))).map fmt,
        optMaxI d (optMaxI (some dv) (maxListI _)))
      rw [optMaxI_assoc]

/-- C7: the resume-cursor scan.  (1) Its result is the formatted maximum of
the dates contributed by the readable, parseable records — `Option.none`
exactly when no record contributes a date.  (2) It is invariant under any
permutation of the scan order.  (3) A list-valued date field contributes
via its first element, exactly as the same scalar date would.  (4) An
unreadable record is skipped, leaving the accumulator unchanged, and (5)
when no record contributes a date the scan returns no cursor. -/
theorem resume_cursor_spec (parse : Str → Option Int) (fmt : Int → Str)
    (records : List ReadRec) :
    get_latest_archived_date parse fmt records
      = (maxListI (records.filterMap (extractDate parse))).map fmt ∧
    (∀ l2, records.Perm l2 →
      get_latest_archived_date parse fmt records = get_latest_archived_date parse fmt l2) ∧
    (∀ (acc : Option Str × Option Int) (x : PyScalar) (xs : List PyScalar),
      latestStep parse fmt acc (.ok (some (.list (x :: xs))))
        = latestStep parse fmt acc (.ok (some (.scalar x)))) ∧
    (∀ acc, latestStep parse fmt acc (.error ()) = acc) ∧
    ((∀ r ∈ records, extractDate parse r = Option.none) →
      get_latest_archived_date parse fmt records = Option.none) := by
  have hmain : ∀ (l : List ReadRec), get_latest_archived_date parse fmt l
      = (maxListI (l.filterMap (extractDate parse))).map fmt := by
    intro l
    unfold get_latest_archived_date
    have h := latest_foldl_spec parse fmt l Option.none
    rw [show (Option.map fmt (Option.none : Option Int)) = (Option.none : Option Str) from rfl]
      at h
    rw [h]
    rfl
  refine ⟨hmain records, ?_, ?_, ?_, ?_⟩
  · intro l2 hperm
    rw [hmain records, hmain l2]
    rw [maxListI_perm _ _ (hperm.filterMap (extractDate parse))]
  · intro acc x xs
    rw [latestStep_eq, latestStep_eq]
    have heq : extractDate parse (.ok (some (.list (x :: xs))))
        = extractDate parse (.ok (some (.scalar x))) := by
      by_cases hx : scalarTruthy x = true
      · show (if scalarTruthy x = true then parse (replaceZ (scalarStr x)) else Option.none)
          = (if scalarTruthy x = true then
              (if scalarTruthy x = true then parse (replaceZ (scalarStr x)) else Option.none)
             else Option.none)
        simp only [if_pos hx]
      · show (if scalarTruthy x = true then parse (replaceZ (scalarStr x)) else Option.none)
          = (if scalarTruthy x = true then
              (if scalarTruthy x = true then parse (replaceZ (scalarStr x)) else Option.none)
             else Option.none)
        simp only [if_neg hx]
    rw [heq]
  · intro acc; rfl
  · intro hnone
    rw [hmain records]
    have hnil : records.filterMap (extractDate parse) = [] := by
      rw [List.filterMap_eq_nil_iff]
      exact hnone
    rw [hnil]
    rfl

/-- C7 witness: the scan theorem on four concrete records (D1 < D3 with D3
inside a list-valued date field, one unreadable record, one dateless
record), scanned in both orders. -/
theorem resume_cursor_spec_witness :
    records7.Perm records7rev ∧
    get_latest_archived_date parse7 fmt7 records7
      = get_latest_archived_date parse7 fmt7 records7rev ∧
    get_latest_archived_date parse7 fmt7 records7 = some "2024/01/03".toList :=
  ⟨by decide,
   (resume_cursor_spec parse7 fmt7 records7).2.1 records7rev (by decide),
   by decide⟩

/-! ## Claim C9 — normalization never harms the original on failure -/

theorem normalize_audio_main (fs : FileMap) (input_path output_format : Str)
    (target_lufs : Int) (bitrate : Option Str) (run : RunOut) :
    ((normalize_audio fs input_path output_format target_lufs bitrate run).2 = false →
      (normalize_audio fs input_path output_format target_lufs bitrate run).1 = fs) ∧
    ((normalize_audio fs input_path output_format target_lufs bitrate run).2 = true →
      ∃ c : Bytes, run = .produced (some c) ∧ 0 < c.length) := by
  unfold normalize_audio
  split
  · exact ⟨fun _ => rfl, fun h => by simp at h⟩
  · split
    · exact ⟨fun _ => rfl, fun h => by simp at h⟩
    · dsimp only
      split
      · exact ⟨fun _ => rfl, fun h => by simp at h⟩
      · exact ⟨fun _ => rfl, fun h => by simp at h⟩
      · rename_i content
        split
        · rename_i hlen
          constructor
          · intro h; simp at h
          · intro _
            exact ⟨content, rfl, by simpa using hlen⟩
        · exact ⟨fun _ => rfl, fun h => by simp at h⟩

/-- C9: `normalize_audio` is non-destructive.  On any failure — missing
input, invalid output format, an exception from the external run, a missing
temporary output, or an empty one — it returns `false` and leaves the whole
directory (in particular the original file) exactly as it was; and whenever
it returns `true`, the external run produced a non-empty verified output
(only then is the original replaced or removed). -/
theorem normalize_audio_nondestructive (fs : FileMap) (input_path output_format : Str)
    (target_lufs : Int) (bitrate : Option Str) (run : RunOut) :
    ((normalize_audio fs input_path output_format target_lufs bitrate run).2 = false →
      (normalize_audio fs input_path output_format target_lufs bitrate run).1 = fs) ∧
    ((normalize_audio fs input_path output_format target_lufs bitrate run).2 = true →
      ∃ c : Bytes, run = .produced (some c) ∧ 0 < c.length) ∧
    ((getA input_path fs).isNone = true →
      normalize_audio fs input_path output_format target_lufs bitrate run = (fs, false)) ∧
    ((OUTPUT_FORMATS.find? (fun p => p.1 = output_format)).isNone = true →
      normalize_audio fs input_path output_format target_lufs bitrate run = (fs, false)) ∧
    (run = .raised →
      (normalize_audio fs input_path output_format target_lufs bitrate run).2 = false) ∧
    (run = .produced Option.none →
      (normalize_audio fs input_path output_format target_lufs bitrate run).2 = false) ∧
    (∀ c : Bytes, run = .produced (some c) → c.length = 0 →
      (normalize_audio fs input_path output_format target_lufs bitrate run).2 = false) := by
  have hm := normalize_audio_main fs input_path output_format target_lufs bitrate run
  refine ⟨hm.1, hm.2, ?_, ?_, ?_, ?_, ?_⟩
  · intro h
    unfold normalize_audio
    rw [if_pos h]
  · intro h
    unfold normalize_audio
    by_cases h1 : (getA input_path fs).isNone = true
    · rw [if_pos h1]
    · rw [if_neg h1, if_pos h]
  · intro hr
    subst hr
    unfold normalize_audio
    split
    · rfl
    · split
      · rfl
      · rfl
  · intro hr
    subst hr
    unfold normalize_audio
    split
    · rfl
    · split
      · rfl
      · rfl
  · intro c hrun hlen
    rcases hb : (normalize_audio fs input_path output_format target_lufs bitrate run).2
        with _ | _
    · rfl
    · exfalso
      rcases hm.2 hb with ⟨c2, hc2, hlen2⟩
      rw [hrun] at hc2
      injection hc2 with h1
      injection h1 with h2
      rw [← h2] at hlen2
      omega

/-- C9 witness: the non-destructiveness theorem at a concrete directory
when the external run raises — the result is `false` and the directory is
untouched. -/
theorem normalize_audio_nondestructive_witness :
    (normalize_audio fs9 "dir/a.mp3".toList "mp3".toList (-16) Option.none .raised).2 = false ∧
    (normalize_audio fs9 "dir/a.mp3".toList "mp3".toList (-16) Option.none .raised).1 = fs9 :=
  ⟨(normalize_audio_nondestructive fs9 "dir/a.mp3".toList "mp3".toList (-16) Option.none
      .raised).2.2.2.2.1 rfl,
   (normalize_audio_nondestructive fs9 "dir/a.mp3".toList "mp3".toList (-16) Option.none
      .raised).1
     ((normalize_audio_nondestructive fs9 "dir/a.mp3".toList "mp3".toList (-16) Option.none
        .raised).2.2.2.2.1 rfl)⟩

end MusicArchive
